import Mathlib

/-!
Verification of the geometric compositor of the synthetic-dataset creator.

The development shallowly embeds the arithmetic core of the pipeline:
* `src/utils/annotations.py` (`convert_to_yolo_format`, `create_yolo_annotation`,
  `check_overlap`, `check_image_coverage`),
* `src/image_processing/composition.py` (`overlay_card`,
  `place_cards_on_background`),
* `src/image_processing/transformations.py` (`apply_transformations`),
* `src/image_processing/loaders.py` (annotation-line handling of
  `load_card_images`).

Coordinates are rationals (Python floats are modelled exactly as ℚ), pixel
buffers are abstracted to opaque values, and fallible operations (division,
list indexing) return `Option`.
-/

namespace SyntheticData

/-- An axis-aligned box `(xmin, ymin, xmax, ymax)` with rational coordinates. -/
structure Box where
  xmin : ℚ
  ymin : ℚ
  xmax : ℚ
  ymax : ℚ
deriving DecidableEq, Repr

/-- Area as computed by the local `area` helper in `check_overlap` /
`check_image_coverage` (annotations.py): `max(0, xmax-xmin) * max(0, ymax-ymin)`. -/
def Box.area (b : Box) : ℚ :=
  max 0 (b.xmax - b.xmin) * max 0 (b.ymax - b.ymin)

/-- Positive-part intersection area of two boxes (used to state properties of
the coverage checks; the source computes it inline via the clamped corner
coordinates). -/
def interArea (a b : Box) : ℚ :=
  max 0 (min a.xmax b.xmax - max a.xmin b.xmin) *
    max 0 (min a.ymax b.ymax - max a.ymin b.ymin)

/-- One iteration of the accumulation loop of `check_overlap`
(annotations.py lines 106-114): add the intersection area of the new box `nb`
with the existing box `eb` whenever that intersection is strictly positive. -/
def coverStep (eb : Box) (covered : ℚ) (nb : Box) : ℚ :=
  if max eb.xmin nb.xmin < min eb.xmax nb.xmax ∧
      max eb.ymin nb.ymin < min eb.ymax nb.ymax then
    covered + (min eb.xmax nb.xmax - max eb.xmin nb.xmin) *
      (min eb.ymax nb.ymax - max eb.ymin nb.ymin)
  else covered

/-- The accumulation loop of `check_overlap` (annotations.py lines 105-114):
starting from `covered = 0`, run `coverStep` over all the new boxes. -/
def coveredBy (newBoxes : List Box) (eb : Box) : ℚ :=
  newBoxes.foldl (coverStep eb) 0

/-- Division as the fallible operation it is in Python: `a / b` raises
`ZeroDivisionError` when `b = 0`. -/
def qdiv? (a b : ℚ) : Option ℚ :=
  if b = 0 then none else some (a / b)

/-- `check_overlap` (annotations.py lines 82-119) with its division embedded
fallibly: iterate over the existing boxes, skip those of non-positive area,
and report `true` as soon as the accumulated coverage of one of them exceeds
`ratio` times its area. -/
def check_overlap? (newBoxes : List Box) (ratio : ℚ) : List Box → Option Bool
  | [] => some false
  | eb :: rest =>
    if eb.area ≤ 0 then check_overlap? newBoxes ratio rest
    else
      match qdiv? (coveredBy newBoxes eb) eb.area with
      | none => none
      | some q =>
        if ratio < q then some true else check_overlap? newBoxes ratio rest

/-- `check_overlap` with total (Lean) division; `check_overlap?` is proved to
agree with it, so the Python function never divides by zero. -/
def check_overlap (newBoxes : List Box) (ratio : ℚ) : List Box → Bool
  | [] => false
  | eb :: rest =>
    if eb.area ≤ 0 then check_overlap newBoxes ratio rest
    else if ratio < coveredBy newBoxes eb / eb.area then true
    else check_overlap newBoxes ratio rest

/-- `check_image_coverage` (annotations.py lines 121-148) with its division
embedded fallibly: report `true` as soon as the footprint box has a strictly
positive intersection with an existing box that exceeds `ratio` times that
box's area. -/
def check_image_coverage? (imageBox : Box) (ratio : ℚ) : List Box → Option Bool
  | [] => some false
  | eb :: rest =>
    let xa := max imageBox.xmin eb.xmin
    let ya := max imageBox.ymin eb.ymin
    let xb := min imageBox.xmax eb.xmax
    let yb := min imageBox.ymax eb.ymax
    if xa < xb ∧ ya < yb then
      match qdiv? ((xb - xa) * (yb - ya)) eb.area with
      | none => none
      | some q =>
        if ratio < q then some true else check_image_coverage? imageBox ratio rest
    else check_image_coverage? imageBox ratio rest

/-- `check_image_coverage` with total division; agrees with
`check_image_coverage?`. -/
def check_image_coverage (imageBox : Box) (ratio : ℚ) : List Box → Bool
  | [] => false
  | eb :: rest =>
    let xa := max imageBox.xmin eb.xmin
    let ya := max imageBox.ymin eb.ymin
    let xb := min imageBox.xmax eb.xmax
    let yb := min imageBox.ymax eb.ymax
    if xa < xb ∧ ya < yb then
      if ratio < (xb - xa) * (yb - ya) / eb.area then true
      else check_image_coverage imageBox ratio rest
    else check_image_coverage imageBox ratio rest

/-- Sum of the intersection areas of the candidate boxes with one existing
box; `coveredBy` is proved equal to it. -/
def coveredSum (newBoxes : List Box) (eb : Box) : ℚ :=
  (newBoxes.map (fun nb => interArea nb eb)).sum

/-- The rejection test of the placement loop
(composition.py lines 143-152): a candidate offset is rejected when
`check_image_coverage(full_box, placed, 0.4)` holds or
`check_overlap(new_boxes, placed, 0.4)` holds. -/
def rejectOffset (fullBox : Box) (newBoxes placed : List Box) : Bool :=
  check_image_coverage fullBox (2/5) placed || check_overlap newBoxes (2/5) placed

lemma Box.area_nonneg (b : Box) : 0 ≤ b.area :=
  mul_nonneg (le_max_left _ _) (le_max_left _ _)

lemma interArea_nonneg (a b : Box) : 0 ≤ interArea a b :=
  mul_nonneg (le_max_left _ _) (le_max_left _ _)

lemma coverStep_eq (eb nb : Box) (a : ℚ) : coverStep eb a nb = a + interArea nb eb := by
  have hxe : min nb.xmax eb.xmax = min eb.xmax nb.xmax := min_comm _ _
  have hxm : max nb.xmin eb.xmin = max eb.xmin nb.xmin := max_comm _ _
  have hye : min nb.ymax eb.ymax = min eb.ymax nb.ymax := min_comm _ _
  have hym : max nb.ymin eb.ymin = max eb.ymin nb.ymin := max_comm _ _
  unfold coverStep interArea
  rw [hxe, hxm, hye, hym]
  by_cases h : max eb.xmin nb.xmin < min eb.xmax nb.xmax ∧
      max eb.ymin nb.ymin < min eb.ymax nb.ymax
  · have e1 : max (0:ℚ) (min eb.xmax nb.xmax - max eb.xmin nb.xmin)
        = min eb.xmax nb.xmax - max eb.xmin nb.xmin := max_eq_right (by linarith [h.1])
    have e2 : max (0:ℚ) (min eb.ymax nb.ymax - max eb.ymin nb.ymin)
        = min eb.ymax nb.ymax - max eb.ymin nb.ymin := max_eq_right (by linarith [h.2])
    rw [if_pos h, e1, e2]
  · rw [if_neg h]
    rcases not_and_or.mp h with hx | hy
    · have e1 : max (0:ℚ) (min eb.xmax nb.xmax - max eb.xmin nb.xmin) = 0 :=
        max_eq_left (by push_neg at hx; linarith)
      rw [e1, zero_mul, add_zero]
    · have e2 : max (0:ℚ) (min eb.ymax nb.ymax - max eb.ymin nb.ymin) = 0 :=
        max_eq_left (by push_neg at hy; linarith)
      rw [e2, mul_zero, add_zero]

lemma coveredBy_eq_coveredSum (nbs : List Box) (eb : Box) :
    coveredBy nbs eb = coveredSum nbs eb := by
  have key : ∀ (l : List Box) (a : ℚ), l.foldl (coverStep eb) a = a + coveredSum l eb := by
    intro l
    induction l with
    | nil => intro a; simp [coveredSum]
    | cons nb t ih =>
        intro a
        rw [List.foldl_cons, ih, coverStep_eq]
        simp only [coveredSum, List.map_cons, List.sum_cons]
        ring
  simpa [coveredBy] using key nbs 0

lemma interArea_eq_zero_of_degenerate (nb eb : Box) (h : eb.area = 0) :
    interArea nb eb = 0 := by
  unfold Box.area at h
  rcases mul_eq_zero.mp h with hx | hy
  · have hx2 : eb.xmax - eb.xmin ≤ 0 := by
      by_contra hc
      push_neg at hc
      have hx3 : max (0:ℚ) (eb.xmax - eb.xmin) = eb.xmax - eb.xmin :=
        max_eq_right (le_of_lt hc)
      rw [hx3] at hx
      linarith
    have e1 : max (0:ℚ) (min nb.xmax eb.xmax - max nb.xmin eb.xmin) = 0 := by
      refine max_eq_left ?_
      have h1 : min nb.xmax eb.xmax ≤ eb.xmax := min_le_right _ _
      have h2 : eb.xmin ≤ max nb.xmin eb.xmin := le_max_right _ _
      linarith
    unfold interArea
    rw [e1, zero_mul]
  · have hy2 : eb.ymax - eb.ymin ≤ 0 := by
      by_contra hc
      push_neg at hc
      have hy3 : max (0:ℚ) (eb.ymax - eb.ymin) = eb.ymax - eb.ymin :=
        max_eq_right (le_of_lt hc)
      rw [hy3] at hy
      linarith
    have e2 : max (0:ℚ) (min nb.ymax eb.ymax - max nb.ymin eb.ymin) = 0 := by
      refine max_eq_left ?_
      have h1 : min nb.ymax eb.ymax ≤ eb.ymax := min_le_right _ _
      have h2 : eb.ymin ≤ max nb.ymin eb.ymin := le_max_right _ _
      linarith
    unfold interArea
    rw [e2, mul_zero]

lemma coveredSum_eq_zero_of_degenerate (nbs : List Box) (eb : Box) (h : eb.area = 0) :
    coveredSum nbs eb = 0 := by
  unfold coveredSum
  refine List.sum_eq_zero ?_
  intro x hx
  rcases List.mem_map.mp hx with ⟨nb, _, rfl⟩
  exact interArea_eq_zero_of_degenerate nb eb h

lemma check_overlap_eq_true_iff (nbs : List Box) (r : ℚ) (ebs : List Box) :
    check_overlap nbs r ebs = true ↔ ∃ eb ∈ ebs, r * eb.area < coveredSum nbs eb := by
  induction ebs with
  | nil => simp [check_overlap]
  | cons eb rest ih =>
      by_cases hA : eb.area ≤ 0
      · have hA0 : eb.area = 0 := le_antisymm hA eb.area_nonneg
        rw [check_overlap, if_pos hA, ih]
        constructor
        · rintro ⟨e, he, h⟩
          exact ⟨e, List.mem_cons_of_mem _ he, h⟩
        · rintro ⟨e, he, h⟩
          rcases List.mem_cons.mp he with rfl | he2
          · rw [hA0, mul_zero, coveredSum_eq_zero_of_degenerate _ _ hA0] at h
            exact absurd h (lt_irrefl 0)
          · exact ⟨e, he2, h⟩
      · push_neg at hA
        rw [check_overlap, if_neg (not_le.mpr hA), coveredBy_eq_coveredSum]
        by_cases hlt : r < coveredSum nbs eb / eb.area
        · rw [if_pos hlt]
          refine ⟨fun _ => ⟨eb, List.mem_cons_self _ _, ?_⟩, fun _ => rfl⟩
          exact (lt_div_iff₀ hA).mp hlt
        · rw [if_neg hlt, ih]
          constructor
          · rintro ⟨e, he, h⟩
            exact ⟨e, List.mem_cons_of_mem _ he, h⟩
          · rintro ⟨e, he, h⟩
            rcases List.mem_cons.mp he with rfl | he2
            · exact absurd ((lt_div_iff₀ hA).mpr h) hlt
            · exact ⟨e, he2, h⟩

lemma area_pos_of_inter (ib eb : Box)
    (hx : max ib.xmin eb.xmin < min ib.xmax eb.xmax)
    (hy : max ib.ymin eb.ymin < min ib.ymax eb.ymax) : 0 < eb.area := by
  have hx2 : eb.xmin < eb.xmax := by
    have h1 : eb.xmin ≤ max ib.xmin eb.xmin := le_max_right _ _
    have h2 : min ib.xmax eb.xmax ≤ eb.xmax := min_le_right _ _
    linarith
  have hy2 : eb.ymin < eb.ymax := by
    have h1 : eb.ymin ≤ max ib.ymin eb.ymin := le_max_right _ _
    have h2 : min ib.ymax eb.ymax ≤ eb.ymax := min_le_right _ _
    linarith
  have e1 : max (0:ℚ) (eb.xmax - eb.xmin) = eb.xmax - eb.xmin :=
    max_eq_right (by linarith)
  have e2 : max (0:ℚ) (eb.ymax - eb.ymin) = eb.ymax - eb.ymin :=
    max_eq_right (by linarith)
  unfold Box.area
  rw [e1, e2]
  exact mul_pos (by linarith) (by linarith)

lemma interArea_of_pos (ib eb : Box)
    (hx : max ib.xmin eb.xmin < min ib.xmax eb.xmax)
    (hy : max ib.ymin eb.ymin < min ib.ymax eb.ymax) :
    interArea ib eb =
      (min ib.xmax eb.xmax - max ib.xmin eb.xmin) *
        (min ib.ymax eb.ymax - max ib.ymin eb.ymin) := by
  have e1 : max (0:ℚ) (min ib.xmax eb.xmax - max ib.xmin eb.xmin)
      = min ib.xmax eb.xmax - max ib.xmin eb.xmin := max_eq_right (by linarith)
  have e2 : max (0:ℚ) (min ib.ymax eb.ymax - max ib.ymin eb.ymin)
      = min ib.ymax eb.ymax - max ib.ymin eb.ymin := max_eq_right (by linarith)
  unfold interArea
  rw [e1, e2]

lemma interArea_of_not_pos (ib eb : Box)
    (h : ¬(max ib.xmin eb.xmin < min ib.xmax eb.xmax ∧
        max ib.ymin eb.ymin < min ib.ymax eb.ymax)) :
    interArea ib eb = 0 := by
  rcases not_and_or.mp h with hx | hy
  · have e1 : max (0:ℚ) (min ib.xmax eb.xmax - max ib.xmin eb.xmin) = 0 :=
      max_eq_left (by push_neg at hx; linarith)
    unfold interArea
    rw [e1, zero_mul]
  · have e2 : max (0:ℚ) (min ib.ymax eb.ymax - max ib.ymin eb.ymin) = 0 :=
      max_eq_left (by push_neg at hy; linarith)
    unfold interArea
    rw [e2, mul_zero]

lemma check_image_coverage_eq_true_iff (ib : Box) (r : ℚ) (hr : 0 ≤ r) (ebs : List Box) :
    check_image_coverage ib r ebs = true ↔ ∃ eb ∈ ebs, r * eb.area < interArea ib eb := by
  induction ebs with
  | nil => simp [check_image_coverage]
  | cons eb rest ih =>
      by_cases hg : max ib.xmin eb.xmin < min ib.xmax eb.xmax ∧
          max ib.ymin eb.ymin < min ib.ymax eb.ymax
      · have hA : 0 < eb.area := area_pos_of_inter ib eb hg.1 hg.2
        have hIA := interArea_of_pos ib eb hg.1 hg.2
        rw [check_image_coverage]
        simp only [if_pos hg]
        by_cases hlt : r <
            (min ib.xmax eb.xmax - max ib.xmin eb.xmin) *
              (min ib.ymax eb.ymax - max ib.ymin eb.ymin) / eb.area
        · rw [if_pos hlt]
          refine ⟨fun _ => ⟨eb, List.mem_cons_self _ _, ?_⟩, fun _ => rfl⟩
          rw [hIA]
          exact (lt_div_iff₀ hA).mp hlt
        · rw [if_neg hlt, ih]
          constructor
          · rintro ⟨e, he, h⟩
            exact ⟨e, List.mem_cons_of_mem _ he, h⟩
          · rintro ⟨e, he, h⟩
            rcases List.mem_cons.mp he with rfl | he2
            · rw [hIA] at h
              exact absurd ((lt_div_iff₀ hA).mpr h) hlt
            · exact ⟨e, he2, h⟩
      · rw [check_image_coverage]
        simp only [if_neg hg]
        rw [ih]
        constructor
        · rintro ⟨e, he, h⟩
          exact ⟨e, List.mem_cons_of_mem _ he, h⟩
        · rintro ⟨e, he, h⟩
          rcases List.mem_cons.mp he with rfl | he2
          · rw [interArea_of_not_pos ib e hg] at h
            exact absurd h (not_lt.mpr (mul_nonneg hr e.area_nonneg))
          · exact ⟨e, he2, h⟩

lemma check_overlap_total (nbs : List Box) (r : ℚ) (ebs : List Box) :
    check_overlap? nbs r ebs = some (check_overlap nbs r ebs) := by
  induction ebs with
  | nil => rfl
  | cons eb rest ih =>
      by_cases hA : eb.area ≤ 0
      · rw [check_overlap?, check_overlap, if_pos hA, if_pos hA, ih]
      · have hA2 : eb.area ≠ 0 := (not_le.mp hA).ne'
        rw [check_overlap?, check_overlap, if_neg hA, if_neg hA]
        simp only [qdiv?, if_neg hA2]
        by_cases hlt : r < coveredBy nbs eb / eb.area
        · rw [if_pos hlt, if_pos hlt]
        · rw [if_neg hlt, if_neg hlt, ih]

lemma check_image_coverage_total (ib : Box) (r : ℚ) (ebs : List Box) :
    check_image_coverage? ib r ebs = some (check_image_coverage ib r ebs) := by
  induction ebs with
  | nil => rfl
  | cons eb rest ih =>
      by_cases hg : max ib.xmin eb.xmin < min ib.xmax eb.xmax ∧
          max ib.ymin eb.ymin < min ib.ymax eb.ymax
      · have hA : 0 < eb.area := area_pos_of_inter ib eb hg.1 hg.2
        rw [check_image_coverage?, check_image_coverage]
        simp only [if_pos hg, qdiv?, if_neg hA.ne']
        by_cases hlt : r < (min ib.xmax eb.xmax - max ib.xmin eb.xmin) *
            (min ib.ymax eb.ymax - max ib.ymin eb.ymin) / eb.area
        · rw [if_pos hlt, if_pos hlt]
        · rw [if_neg hlt, if_neg hlt, ih]
      · rw [check_image_coverage?, check_image_coverage]
        simp only [if_neg hg]
        exact ih

lemma check_overlap_skip_degenerate (nbs : List Box) (r : ℚ) (eb : Box)
    (rest : List Box) (h : eb.area = 0) :
    check_overlap nbs r (eb :: rest) = check_overlap nbs r rest := by
  rw [check_overlap, if_pos (le_of_eq h)]

lemma check_image_coverage_skip_degenerate (ib : Box) (r : ℚ) (eb : Box)
    (rest : List Box) (h : eb.area = 0) :
    check_image_coverage ib r (eb :: rest) = check_image_coverage ib r rest := by
  have hg : ¬(max ib.xmin eb.xmin < min ib.xmax eb.xmax ∧
      max ib.ymin eb.ymin < min ib.ymax eb.ymax) := by
    intro hc
    exact absurd (area_pos_of_inter ib eb hc.1 hc.2) (by rw [h]; exact lt_irrefl 0)
  rw [check_image_coverage]
  simp only [if_neg hg]

/-- C2: In the per-card placement loop, a candidate offset is rejected exactly
when either (i) the transformed sprite's full footprint rectangle covers
strictly more than 40% of the area of some already-placed box, or (ii) the sum
over all of the sprite's own candidate boxes of their intersection areas with
some already-placed box strictly exceeds 40% of that box's area; a candidate
whose coverage of every placed box is at most 40% both ways is not rejected by
these checks. -/
theorem claim_C2_reject_iff (fullBox : Box) (newBoxes placed : List Box) :
    (rejectOffset fullBox newBoxes placed = true ↔
      (∃ eb ∈ placed, (2/5 : ℚ) * eb.area < interArea fullBox eb) ∨
      (∃ eb ∈ placed, (2/5 : ℚ) * eb.area < coveredSum newBoxes eb)) ∧
    ((∀ eb ∈ placed, interArea fullBox eb ≤ (2/5 : ℚ) * eb.area ∧
        coveredSum newBoxes eb ≤ (2/5 : ℚ) * eb.area) →
      rejectOffset fullBox newBoxes placed = false) := by
  have hiff : rejectOffset fullBox newBoxes placed = true ↔
      (∃ eb ∈ placed, (2/5 : ℚ) * eb.area < interArea fullBox eb) ∨
      (∃ eb ∈ placed, (2/5 : ℚ) * eb.area < coveredSum newBoxes eb) := by
    unfold rejectOffset
    rw [Bool.or_eq_true,
      check_image_coverage_eq_true_iff fullBox (2/5) (by norm_num) placed,
      check_overlap_eq_true_iff]
  refine ⟨hiff, fun hall => ?_⟩
  by_contra hne
  have ht : rejectOffset fullBox newBoxes placed = true := by
    cases h : rejectOffset fullBox newBoxes placed
    · exact absurd h hne
    · rfl
  rcases hiff.mp ht with ⟨eb, he, hlt⟩ | ⟨eb, he, hlt⟩
  · exact absurd hlt (not_lt.mpr (hall eb he).1)
  · exact absurd hlt (not_lt.mpr (hall eb he).2)

/-- Witness for C2 at the spec's own example: against an existing box
`(0,0,100,100)`, a candidate with 39% coverage is not rejected. -/
theorem claim_C2_reject_iff_witness :
    rejectOffset ⟨0, 0, 39, 100⟩ [⟨0, 0, 39, 100⟩] [⟨0, 0, 100, 100⟩] = false :=
  (claim_C2_reject_iff ⟨0, 0, 39, 100⟩ [⟨0, 0, 39, 100⟩] [⟨0, 0, 100, 100⟩]).2
    (by
      intro eb he
      rcases List.mem_singleton.mp he with rfl
      norm_num [interArea, coveredSum, Box.area])

/-- C9: The two coverage tests are total over arbitrary boxes: `check_overlap`
skips any existing box with non-positive area before dividing, and
`check_image_coverage` divides by an existing box's area only when the
intersection with it is strictly positive (impossible when that box is
degenerate); hence the fallible embeddings never fail (no division by zero for
any inputs), and an existing box with zero area never changes the result of
either check, so it never causes a candidate offset to be rejected. -/
theorem claim_C9_coverage_total :
    (∀ (nbs : List Box) (r : ℚ) (ebs : List Box),
      check_overlap? nbs r ebs = some (check_overlap nbs r ebs)) ∧
    (∀ (ib : Box) (r : ℚ) (ebs : List Box),
      check_image_coverage? ib r ebs = some (check_image_coverage ib r ebs)) ∧
    (∀ (nbs : List Box) (r : ℚ) (eb : Box) (rest : List Box), eb.area = 0 →
      check_overlap nbs r (eb :: rest) = check_overlap nbs r rest) ∧
    (∀ (ib : Box) (r : ℚ) (eb : Box) (rest : List Box), eb.area = 0 →
      check_image_coverage ib r (eb :: rest) = check_image_coverage ib r rest) :=
  ⟨check_overlap_total, check_image_coverage_total,
    check_overlap_skip_degenerate, check_image_coverage_skip_degenerate⟩

/-- Witness for C9 on a concrete degenerate existing box `(3,0,3,8)`. -/
theorem claim_C9_coverage_total_witness :
    check_overlap? [⟨0, 0, 10, 10⟩] (2/5) [⟨3, 0, 3, 8⟩, ⟨0, 0, 4, 4⟩] =
      some (check_overlap [⟨0, 0, 10, 10⟩] (2/5) [⟨3, 0, 3, 8⟩, ⟨0, 0, 4, 4⟩]) ∧
    check_image_coverage? ⟨0, 0, 10, 10⟩ (2/5) [⟨3, 0, 3, 8⟩, ⟨0, 0, 4, 4⟩] =
      some (check_image_coverage ⟨0, 0, 10, 10⟩ (2/5) [⟨3, 0, 3, 8⟩, ⟨0, 0, 4, 4⟩]) ∧
    check_overlap [⟨0, 0, 10, 10⟩] (2/5) (⟨3, 0, 3, 8⟩ :: [⟨0, 0, 4, 4⟩]) =
      check_overlap [⟨0, 0, 10, 10⟩] (2/5) [⟨0, 0, 4, 4⟩] ∧
    check_image_coverage ⟨0, 0, 10, 10⟩ (2/5) (⟨3, 0, 3, 8⟩ :: [⟨0, 0, 4, 4⟩]) =
      check_image_coverage ⟨0, 0, 10, 10⟩ (2/5) [⟨0, 0, 4, 4⟩] :=
  ⟨claim_C9_coverage_total.1 _ _ _, claim_C9_coverage_total.2.1 _ _ _,
    claim_C9_coverage_total.2.2.1 _ _ _ _ (by norm_num [Box.area]),
    claim_C9_coverage_total.2.2.2 _ _ _ _ (by norm_num [Box.area])⟩

/-- A YOLO output record `(class_id, x_center, y_center, width, height)`. -/
structure YoloRecord where
  classId : ℤ
  xCenter : ℚ
  yCenter : ℚ
  w : ℚ
  h : ℚ
deriving DecidableEq, Repr

/-- `convert_to_yolo_format` (annotations.py lines 5-33): normalize a box to
center/size fractions of the canvas dimensions, each clamped to [0, 1]. -/
def convert_to_yolo_format (box : Box) (imageWidth imageHeight : ℚ)
    (classId : ℤ) : YoloRecord :=
  let xCenter := (box.xmin + box.xmax) / (2 * imageWidth)
  let yCenter := (box.ymin + box.ymax) / (2 * imageHeight)
  let w := (box.xmax - box.xmin) / imageWidth
  let h := (box.ymax - box.ymin) / imageHeight
  { classId := classId,
    xCenter := max 0 (min 1 xCenter),
    yCenter := max 0 (min 1 yCenter),
    w := max 0 (min 1 w),
    h := max 0 (min 1 h) }

/-- An object record produced by the Placement Engine
(composition.py lines 169-175). -/
structure PlacedObject where
  label : String
  xmin : ℚ
  ymin : ℚ
  xmax : ℚ
  ymax : ℚ
deriving DecidableEq, Repr

/-- `label_to_id.get(label, -1)` on the label-to-id mapping. -/
def lookupId (labelToId : List (String × ℤ)) (label : String) : ℤ :=
  match labelToId.find? (fun p => p.1 == label) with
  | none => -1
  | some p => p.2

/-- The Annotation Encoder loop of `create_yolo_annotation`
(annotations.py lines 35-68): skip objects with unknown labels, convert the
rest in input order. -/
def create_yolo_records (imageWidth imageHeight : ℚ)
    (labelToId : List (String × ℤ)) : List PlacedObject → List YoloRecord
  | [] => []
  | obj :: rest =>
    let classId := lookupId labelToId obj.label
    if classId = -1 then create_yolo_records imageWidth imageHeight labelToId rest
    else
      convert_to_yolo_format ⟨obj.xmin, obj.ymin, obj.xmax, obj.ymax⟩
          imageWidth imageHeight classId ::
        create_yolo_records imageWidth imageHeight labelToId rest

lemma clamp01_mem (x : ℚ) : 0 ≤ max 0 (min 1 x) ∧ max 0 (min 1 x) ≤ 1 :=
  ⟨le_max_left _ _, max_le (by norm_num) (min_le_left _ _)⟩

/-- C5: For every input box and positive canvas width and height, every record
emitted by the Annotation Encoder has `x_center`, `y_center`, `width`, `height`
each within [0, 1]. -/
theorem claim_C5_yolo_bounds (objects : List PlacedObject)
    (imageWidth imageHeight : ℚ) (labelToId : List (String × ℤ))
    (hW : 0 < imageWidth) (hH : 0 < imageHeight) :
    ∀ r ∈ create_yolo_records imageWidth imageHeight labelToId objects,
      (0 ≤ r.xCenter ∧ r.xCenter ≤ 1) ∧ (0 ≤ r.yCenter ∧ r.yCenter ≤ 1) ∧
      (0 ≤ r.w ∧ r.w ≤ 1) ∧ (0 ≤ r.h ∧ r.h ≤ 1) := by
  induction objects with
  | nil =>
      intro r hr
      simp [create_yolo_records] at hr
  | cons obj rest ih =>
      intro r hr
      rw [create_yolo_records] at hr
      by_cases hid : lookupId labelToId obj.label = -1
      · simp only [if_pos hid] at hr
        exact ih r hr
      · simp only [if_neg hid] at hr
        rcases List.mem_cons.mp hr with rfl | h2
        · exact ⟨clamp01_mem _, clamp01_mem _, clamp01_mem _, clamp01_mem _⟩
        · exact ih r h2

/-- Witness for C5 at the spec's end-to-end example: a 100 by 100 box on a
620 by 620 canvas. -/
theorem claim_C5_yolo_bounds_witness :
    convert_to_yolo_format ⟨0, 0, 100, 100⟩ 620 620 9 ∈
      create_yolo_records 620 620 [("maki_roll", 9)]
        [⟨"maki_roll", 0, 0, 100, 100⟩] ∧
    (0 ≤ (convert_to_yolo_format ⟨0, 0, 100, 100⟩ 620 620 9).xCenter ∧
      (convert_to_yolo_format ⟨0, 0, 100, 100⟩ 620 620 9).xCenter ≤ 1) ∧
    ((0 ≤ (convert_to_yolo_format ⟨0, 0, 100, 100⟩ 620 620 9).yCenter ∧
      (convert_to_yolo_format ⟨0, 0, 100, 100⟩ 620 620 9).yCenter ≤ 1) ∧
    (0 ≤ (convert_to_yolo_format ⟨0, 0, 100, 100⟩ 620 620 9).w ∧
      (convert_to_yolo_format ⟨0, 0, 100, 100⟩ 620 620 9).w ≤ 1) ∧
    (0 ≤ (convert_to_yolo_format ⟨0, 0, 100, 100⟩ 620 620 9).h ∧
      (convert_to_yolo_format ⟨0, 0, 100, 100⟩ 620 620 9).h ≤ 1)) :=
  ⟨by simp [create_yolo_records, lookupId],
    claim_C5_yolo_bounds [⟨"maki_roll", 0, 0, 100, 100⟩] 620 620
      [("maki_roll", 9)] (by norm_num) (by norm_num) _
      (by simp [create_yolo_records, lookupId])⟩

/-- The per-box validation and clipping step of `place_cards_on_background`
(composition.py lines 158-175): a box is kept when it is non-degenerate
*before* clipping; the emitted object is then clipped to the canvas. -/
def emitObject (bgW bgH : ℚ) (label : String) (xb : Box) : Option PlacedObject :=
  if xb.xmin < xb.xmax ∧ xb.ymin < xb.ymax then
    some { label := label, xmin := max 0 xb.xmin, ymin := max 0 xb.ymin,
           xmax := min bgW xb.xmax, ymax := min bgH xb.ymax }
  else none

/-- C1 counterexample: a box wholly left of a 100 by 100 canvas is valid before
clipping, so it is emitted rather than discarded, and its clipped coordinates
violate `0 ≤ xmin < xmax ≤ canvas_width` (here `xmax = -2`). -/
theorem claim_C1_cex :
    emitObject 100 100 "card" ⟨-10, 5, -2, 10⟩ = some ⟨"card", 0, 5, -2, 10⟩ ∧
    ¬(((0:ℚ) ≤ (-2:ℚ)) ∧ ((0:ℚ) < (-2:ℚ))) := by
  decide

/-- C1 amended: a box degenerate before clipping is discarded, and every
emitted object whose pre-clip box meets the canvas interior satisfies
`0 ≤ xmin < xmax ≤ canvas_width` and `0 ≤ ymin < ymax ≤ canvas_height`; a
pre-clip-valid box disjoint from the canvas is still emitted, with
out-of-range coordinates. -/
theorem claim_C1_emit_invariant (bgW bgH : ℚ) (label : String) (xb : Box) :
    (¬(xb.xmin < xb.xmax ∧ xb.ymin < xb.ymax) →
      emitObject bgW bgH label xb = none) ∧
    (∀ obj, emitObject bgW bgH label xb = some obj →
      max 0 xb.xmin < min bgW xb.xmax → max 0 xb.ymin < min bgH xb.ymax →
      0 ≤ obj.xmin ∧ obj.xmin < obj.xmax ∧ obj.xmax ≤ bgW ∧
      0 ≤ obj.ymin ∧ obj.ymin < obj.ymax ∧ obj.ymax ≤ bgH) := by
  constructor
  · intro h
    unfold emitObject
    rw [if_neg h]
  · intro obj hobj hx hy
    unfold emitObject at hobj
    by_cases hv : xb.xmin < xb.xmax ∧ xb.ymin < xb.ymax
    · rw [if_pos hv] at hobj
      obtain rfl := Option.some.inj hobj
      exact ⟨le_max_left _ _, hx, min_le_left _ _,
        le_max_left _ _, hy, min_le_left _ _⟩
    · rw [if_neg hv] at hobj
      exact absurd hobj (by simp)

/-- Witness for the amended C1 on a box overlapping the canvas edge. -/
theorem claim_C1_emit_invariant_witness :
    emitObject 100 100 "card" ⟨-5, -5, 50, 60⟩ = some ⟨"card", 0, 0, 50, 60⟩ ∧
    (0 ≤ (0:ℚ) ∧ (0:ℚ) < 50 ∧ (50:ℚ) ≤ 100 ∧
      0 ≤ (0:ℚ) ∧ (0:ℚ) < 60 ∧ (60:ℚ) ≤ 100) :=
  ⟨by decide,
    (claim_C1_emit_invariant 100 100 "card" ⟨-5, -5, 50, 60⟩).2
      ⟨"card", 0, 0, 50, 60⟩ (by decide) (by decide) (by decide)⟩

/-- Truncation toward zero, as Python's `int()` applied to a float. -/
def pyInt (q : ℚ) : ℤ :=
  if 0 ≤ q then ⌊q⌋ else ⌈q⌉

/-- Modelled from the spec: the pixel-rotation step of the Geometric Transform
Stage is performed by the imaging library, whose code is not part of this
repository; per the spec it rotates "with expansion (output canvas grows to
contain the full rotated content)", so the new buffer size is the axis-aligned
extent of the rotated `w` by `h` rectangle, where `c` and `s` are the cosine
and sine of the angle. This is exact at the right angles used below (angle 0:
size unchanged; angle 90: the dimensions swap). -/
def rotateExpandDims (w h : ℕ) (c s : ℚ) : ℕ × ℕ :=
  (⌈(w : ℚ) * |c| + (h : ℚ) * |s|⌉.toNat, ⌈(w : ℚ) * |s| + (h : ℚ) * |c|⌉.toNat)

/-- Local bounding box of a sprite: the dictionary stored in
`card['bounding_boxes']` (label, corner coordinates, derived width and
height). -/
structure LBox where
  label : String
  xmin : ℚ
  ymin : ℚ
  xmax : ℚ
  ymax : ℚ
  width : ℚ
  height : ℚ
deriving DecidableEq, Repr

/-- Application of the combined scale-then-rotate matrix of
`apply_transformations` (transformations.py lines 144-156) to one point: the
scale matrix multiplies by `scale_factor` `sf`; the rotation matrix is
OpenCV's `getRotationMatrix2D` about `(Cx, Cy)` with angle cosine `c` and
sine `s`. -/
def scaleRotatePoint (sf c s Cx Cy : ℚ) (p : ℚ × ℚ) : ℚ × ℚ :=
  (c * (sf * p.1) + s * (sf * p.2) + ((1 - c) * Cx - s * Cy),
   -s * (sf * p.1) + c * (sf * p.2) + (s * Cx + (1 - c) * Cy))

/-- The bounding-box transform of `apply_transformations`
(transformations.py lines 158-191): map the four corners through the combined
matrix, add the rotation-expansion offsets `dx`, `dy`, and take the
axis-aligned min/max; width and height are recomputed. -/
def transformBBox (sf c s Cx Cy dx dy : ℚ) (b : LBox) : LBox :=
  let p1 := scaleRotatePoint sf c s Cx Cy (b.xmin, b.ymin)
  let p2 := scaleRotatePoint sf c s Cx Cy (b.xmax, b.ymin)
  let p3 := scaleRotatePoint sf c s Cx Cy (b.xmin, b.ymax)
  let p4 := scaleRotatePoint sf c s Cx Cy (b.xmax, b.ymax)
  let nxmin := min (min (p1.1 + dx) (p2.1 + dx)) (min (p3.1 + dx) (p4.1 + dx))
  let nymin := min (min (p1.2 + dy) (p2.2 + dy)) (min (p3.2 + dy) (p4.2 + dy))
  let nxmax := max (max (p1.1 + dx) (p2.1 + dx)) (max (p3.1 + dx) (p4.1 + dx))
  let nymax := max (max (p1.2 + dy) (p2.2 + dy)) (max (p3.2 + dy) (p4.2 + dy))
  { label := b.label, xmin := nxmin, ymin := nymin, xmax := nxmax, ymax := nymax,
    width := nxmax - nxmin, height := nymax - nymin }

/-- A 3 by 3 projective matrix (row major), as produced by
`getPerspectiveTransform`. -/
structure PMat where
  m00 : ℚ
  m01 : ℚ
  m02 : ℚ
  m10 : ℚ
  m11 : ℚ
  m12 : ℚ
  m20 : ℚ
  m21 : ℚ
  m22 : ℚ
deriving DecidableEq, Repr

/-- Homogeneous transform of one point with the divide guard of
transformations.py line 218 (no division when the third component is zero). -/
def perspPoint (M : PMat) (x y : ℚ) : ℚ × ℚ :=
  let tx := M.m00 * x + M.m01 * y + M.m02
  let ty := M.m10 * x + M.m11 * y + M.m12
  let tz := M.m20 * x + M.m21 * y + M.m22
  if tz ≠ 0 then (tx / tz, ty / tz) else (tx, ty)

/-- Bounding-box transform of the perspective step
(transformations.py lines 200-236). -/
def perspBBox (M : PMat) (b : LBox) : LBox :=
  let p1 := perspPoint M b.xmin b.ymin
  let p2 := perspPoint M b.xmax b.ymin
  let p3 := perspPoint M b.xmin b.ymax
  let p4 := perspPoint M b.xmax b.ymax
  let nxmin := min (min p1.1 p2.1) (min p3.1 p4.1)
  let nymin := min (min p1.2 p2.2) (min p3.2 p4.2)
  let nxmax := max (max p1.1 p2.1) (max p3.1 p4.1)
  let nymax := max (max p1.2 p2.2) (max p3.2 p4.2)
  { label := b.label, xmin := nxmin, ymin := nymin, xmax := nxmax, ymax := nymax,
    width := nxmax - nxmin, height := nymax - nymin }

/-- A card as loaded by `load_card_images`: an abstract pixel-buffer value,
the buffer's dimensions, the card's label and its bounding boxes. -/
structure Card where
  img : ℕ
  width : ℕ
  height : ℕ
  label : String
  boxes : List LBox
deriving DecidableEq, Repr

/-- The random draws consumed by one call of `apply_transformations`: the
rotation angle enters the box arithmetic only through its cosine `c` and sine
`s`; `jb`, `jc`, `js` are the brightness, contrast and saturation jitter
factors (they touch pixels only); `persp` is the optional perspective
matrix. -/
structure TParams where
  c : ℚ
  s : ℚ
  jb : ℚ
  jc : ℚ
  js : ℚ
  persp : Option PMat
deriving DecidableEq, Repr

/-- `apply_transformations` (transformations.py lines 72-246) at the level of
dimensions and bounding boxes: the pixel content is abstracted by the opaque
update `fpix` (resampling, rotation and the jitter factors act on pixels only
through it); `sf` is the scale factor. -/
def apply_transformations (fpix : ℕ → ℕ) (card : Card) (sf : ℚ)
    (p : TParams) : Card :=
  let newW := (pyInt ((card.width : ℚ) * sf)).toNat
  let newH := (pyInt ((card.height : ℚ) * sf)).toNat
  let rot := rotateExpandDims newW newH p.c p.s
  let dx := ((rot.1 : ℚ) - (newW : ℚ)) / 2
  let dy := ((rot.2 : ℚ) - (newH : ℚ)) / 2
  let Cx := ((card.width : ℚ) / 2) * sf
  let Cy := ((card.height : ℚ) / 2) * sf
  let tboxes := card.boxes.map (transformBBox sf p.c p.s Cx Cy dx dy)
  let tboxes2 := match p.persp with
    | none => tboxes
    | some M => tboxes.map (perspBBox M)
  { img := fpix card.img, width := rot.1, height := rot.2,
    label := card.label, boxes := tboxes2 }

lemma scaleRotatePoint_id (Cx Cy : ℚ) (p : ℚ × ℚ) :
    scaleRotatePoint 1 1 0 Cx Cy p = p := by
  unfold scaleRotatePoint
  rw [Prod.ext_iff]
  constructor
  · show 1 * (1 * p.1) + 0 * (1 * p.2) + ((1 - 1) * Cx - 0 * Cy) = p.1
    ring
  · show -0 * (1 * p.1) + 1 * (1 * p.2) + (0 * Cx + (1 - 1) * Cy) = p.2
    ring

lemma transformBBox_id (Cx Cy : ℚ) (b : LBox)
    (hx : b.xmin ≤ b.xmax) (hy : b.ymin ≤ b.ymax) :
    (transformBBox 1 1 0 Cx Cy 0 0 b).xmin = b.xmin ∧
    (transformBBox 1 1 0 Cx Cy 0 0 b).ymin = b.ymin ∧
    (transformBBox 1 1 0 Cx Cy 0 0 b).xmax = b.xmax ∧
    (transformBBox 1 1 0 Cx Cy 0 0 b).ymax = b.ymax := by
  unfold transformBBox
  rw [scaleRotatePoint_id, scaleRotatePoint_id, scaleRotatePoint_id,
    scaleRotatePoint_id]
  simp only [add_zero]
  exact ⟨by simp [min_eq_left hx, min_eq_left hy, min_self],
    by simp [min_eq_left hx, min_eq_left hy, min_self],
    by simp [max_eq_right hx, max_eq_right hy, max_self],
    by simp [max_eq_right hx, max_eq_right hy, max_self]⟩

lemma pyInt_natCast_mul_one (w : ℕ) : (pyInt ((w : ℚ) * 1)).toNat = w := by
  rw [mul_one]
  unfold pyInt
  rw [if_pos (by positivity), Int.floor_natCast]
  exact Int.toNat_natCast w

lemma rotateExpandDims_zero_angle (w h : ℕ) :
    rotateExpandDims w h 1 0 = (w, h) := by
  unfold rotateExpandDims
  rw [abs_one, abs_zero]
  rw [Prod.ext_iff]
  constructor
  · show (⌈(w : ℚ) * 1 + (h : ℚ) * 0⌉).toNat = w
    rw [mul_one, mul_zero, add_zero, Int.ceil_natCast]
    exact Int.toNat_natCast w
  · show (⌈(w : ℚ) * 0 + (h : ℚ) * 1⌉).toNat = h
    rw [mul_zero, mul_one, zero_add, Int.ceil_natCast]
    exact Int.toNat_natCast h

/-- C6: running the Geometric Transform Stage with `scale_factor = 1`, the
rotation angle fixed to 0 (cosine 1, sine 0) and perspective disabled returns
a sprite whose width and height equal the input's and whose bounding boxes
have the same `xmin`, `ymin`, `xmax`, `ymax` as the input boxes, for every
value of the color-jitter draws (they affect pixels only, never boxes). -/
theorem claim_C6_identity_transform (fpix : ℕ → ℕ) (card : Card) (p : TParams)
    (hc : p.c = 1) (hs : p.s = 0) (hpersp : p.persp = none)
    (hboxes : ∀ b ∈ card.boxes, b.xmin ≤ b.xmax ∧ b.ymin ≤ b.ymax) :
    (apply_transformations fpix card 1 p).width = card.width ∧
    (apply_transformations fpix card 1 p).height = card.height ∧
    List.Forall₂ (fun b tb => tb.xmin = b.xmin ∧ tb.ymin = b.ymin ∧
        tb.xmax = b.xmax ∧ tb.ymax = b.ymax)
      card.boxes (apply_transformations fpix card 1 p).boxes := by
  simp only [apply_transformations, hc, hs, hpersp, pyInt_natCast_mul_one,
    rotateExpandDims_zero_angle, sub_self, zero_div]
  refine ⟨trivial, trivial, ?_⟩
  rw [List.forall₂_map_right_iff]
  rw [List.forall₂_same]
  intro b hb
  obtain ⟨h1, h2, h3, h4⟩ :=
    transformBBox_id (((card.width : ℚ) / 2) * 1) (((card.height : ℚ) / 2) * 1)
      b (hboxes b hb).1 (hboxes b hb).2
  exact ⟨h1, h2, h3, h4⟩

/-- Witness for C6 on a concrete 40 by 60 card with one box. -/
theorem claim_C6_identity_transform_witness :
    (apply_transformations id ⟨7, 40, 60, "card", [⟨"card", 3, 4, 20, 30, 17, 26⟩]⟩
        1 ⟨1, 0, 2, 3, 4, none⟩).width = 40 ∧
    (apply_transformations id ⟨7, 40, 60, "card", [⟨"card", 3, 4, 20, 30, 17, 26⟩]⟩
        1 ⟨1, 0, 2, 3, 4, none⟩).height = 60 ∧
    List.Forall₂ (fun b tb => tb.xmin = b.xmin ∧ tb.ymin = b.ymin ∧
        tb.xmax = b.xmax ∧ tb.ymax = b.ymax)
      [(⟨"card", 3, 4, 20, 30, 17, 26⟩ : LBox)]
      (apply_transformations id ⟨7, 40, 60, "card", [⟨"card", 3, 4, 20, 30, 17, 26⟩]⟩
        1 ⟨1, 0, 2, 3, 4, none⟩).boxes :=
  claim_C6_identity_transform id ⟨7, 40, 60, "card", [⟨"card", 3, 4, 20, 30, 17, 26⟩]⟩
    ⟨1, 0, 2, 3, 4, none⟩ rfl rfl rfl
    (by intro b hb; rcases List.mem_singleton.mp hb with rfl; norm_num)

/-- The scale-factor clamp of the per-card loop
(composition.py lines 126-129): the desired scale `s0` (the square root of
the desired-to-original area ratio) is capped at 0.9 times the canvas-to-card
ratio in each dimension. -/
def clampedScale (s0 : ℚ) (bgW bgH cardW cardH : ℕ) : ℚ :=
  min s0 (min ((bgW : ℚ) / (cardW : ℚ) * (9/10)) ((bgH : ℚ) / (cardH : ℚ) * (9/10)))

/-- The sampling bound for a candidate offset (composition.py lines 135-136):
`random.randint(0, max(0, bg - dim))` draws from the closed integer interval
`[0, max(0, bg - dim)]`. -/
def offsetUpper (bgDim spriteDim : ℕ) : ℤ :=
  max 0 ((bgDim : ℤ) - (spriteDim : ℤ))

/-- C3 counterexample: canvas 100 by 1000, card 10 by 20, desired scale 14
(14 squared is exactly the desired-to-original area ratio for a base percent
of 0.4 and variation 0.98). The clamping rule yields scale factor 9 (the
0.9-width cap), the scaled sprite is 90 by 180, and a rotation by 90 degrees
(cosine 0, sine 1) expands the buffer to 180 by 90 - wider than the canvas;
the only sampled x offset is then 0 and the transformed sprite's bounding
rectangle overflows the canvas: 0 + 180 > 100. -/
theorem claim_C3_cex :
    (14 : ℚ) ^ 2 = (2/5) * (49/50) * ((100 : ℚ) * 1000) / ((10 : ℚ) * 20) ∧
    clampedScale 14 100 1000 10 20 = 9 ∧
    (apply_transformations id ⟨0, 10, 20, "card", []⟩
        (clampedScale 14 100 1000 10 20) ⟨0, 1, 1, 1, 1, none⟩).width = 180 ∧
    offsetUpper 100 180 = 0 ∧
    ¬((0 : ℤ) + 180 ≤ 100) := by
  norm_num [clampedScale, apply_transformations, pyInt, rotateExpandDims,
    offsetUpper, Int.toNat_ofNat]
  decide

/-- C3 amended: every sampled offset lies in `[0, max(0, canvas - sprite)]`,
so whenever the transformed sprite's dimension fits within the canvas the
sampled offset keeps the sprite's full bounding rectangle inside; the
clamping rule bounds only the pre-rotation scaled dimensions, and rotation
with expansion can exceed the canvas, in which case the offset is 0 and the
sprite overflows (handled later by the Compositor's clipping). -/
theorem claim_C3_offsets_inside (bgDim tw : ℕ) (x : ℤ)
    (hx0 : 0 ≤ x) (hx : x ≤ offsetUpper bgDim tw) (hfit : tw ≤ bgDim) :
    0 ≤ x ∧ x + (tw : ℤ) ≤ (bgDim : ℤ) := by
  refine ⟨hx0, ?_⟩
  have hcast : (tw : ℤ) ≤ (bgDim : ℤ) := Int.ofNat_le.mpr hfit
  have h2 : offsetUpper bgDim tw = (bgDim : ℤ) - (tw : ℤ) := by
    unfold offsetUpper
    exact max_eq_right (by linarith)
  rw [h2] at hx
  linarith

/-- Witness for the amended C3: offset 5 for a 50-wide sprite on a 100-wide
canvas. -/
theorem claim_C3_offsets_inside_witness :
    (0 : ℤ) ≤ 5 ∧ (5 : ℤ) ≤ offsetUpper 100 50 ∧ (50 : ℕ) ≤ 100 ∧
    (0 ≤ (5 : ℤ) ∧ (5 : ℤ) + (50 : ℕ) ≤ (100 : ℕ)) :=
  ⟨by norm_num, by norm_num [offsetUpper], by norm_num,
    claim_C3_offsets_inside 100 50 5 (by norm_num)
      (by norm_num [offsetUpper]) (by norm_num)⟩

/-- Offset adjustment of `overlay_card` (composition.py lines 34-42) for one
axis: if the card would overflow the background, the offset is moved back to
`background - card`; afterwards it is clamped to be nonnegative. -/
def overlayAdjust (bgDim cardDim : ℕ) (off : ℤ) : ℤ :=
  max 0 (if (bgDim : ℤ) < off + (cardDim : ℤ) then (bgDim : ℤ) - (cardDim : ℤ) else off)

/-- Extent of the integer slice `[lo, lo + len)` of an array of size `n`, as
numpy computes it for the region of interest (composition.py line 45); the
card is then cropped to this extent (lines 48-50). -/
def sliceLen (n : ℕ) (lo : ℤ) (len : ℕ) : ℤ :=
  max 0 (min (lo + (len : ℤ)) (n : ℤ) - min (max 0 lo) (n : ℤ))

/-- The box translation of `overlay_card` (composition.py lines 70-77): every
bounding box of the card shifted by the adjusted paste offsets. -/
def overlay_card_boxes (bgW bgH cardW cardH : ℕ) (boxes : List LBox)
    (xOff yOff : ℤ) : List Box :=
  boxes.map fun b =>
    ⟨b.xmin + (overlayAdjust bgW cardW xOff : ℚ),
     b.ymin + (overlayAdjust bgH cardH yOff : ℚ),
     b.xmax + (overlayAdjust bgW cardW xOff : ℚ),
     b.ymax + (overlayAdjust bgH cardH yOff : ℚ)⟩

/-- C4 counterexample: a 50-wide card at requested x offset 80 on a 100-wide
canvas overflows; `overlay_card` does not keep the requested offset and shrink
the sprite at the right edge - it moves the paste offset to 50, pastes the
whole (unshrunk) card there, and the returned box is translated by 50, not
80. -/
theorem claim_C4_cex :
    overlayAdjust 100 50 80 = 50 ∧ (50 : ℤ) ≠ 80 ∧
    sliceLen 100 (overlayAdjust 100 50 80) 50 = 50 ∧
    overlay_card_boxes 100 100 50 50 [⟨"card", 0, 0, 50, 50, 50, 50⟩] 80 10 =
      [⟨50, 10, 100, 60⟩] := by
  norm_num [overlayAdjust, overlay_card_boxes, sliceLen]

lemma overlayAdjust_nonneg (bgDim cardDim : ℕ) (off : ℤ) :
    0 ≤ overlayAdjust bgDim cardDim off :=
  le_max_left _ _

lemma overlayAdjust_le_bg (bgDim cardDim : ℕ) (off : ℤ) (h0 : 0 ≤ off) :
    overlayAdjust bgDim cardDim off ≤ (bgDim : ℤ) := by
  unfold overlayAdjust
  by_cases hov : (bgDim : ℤ) < off + (cardDim : ℤ)
  · rw [if_pos hov]
    exact max_le (Int.ofNat_nonneg bgDim) (by omega)
  · rw [if_neg hov]
    push_neg at hov
    refine max_le (Int.ofNat_nonneg bgDim) (by omega)

/-- C4 amended: for every nonnegative requested offset, `overlay_card` first
moves an overflowing offset back so the card fits (to `background - card`,
rather than keeping the requested offset), then clamps it to be nonnegative;
the pasted extent equals the full card whenever the card fits in the canvas,
and the card is shrunk at the bottom/right edge only when it is larger than
the canvas (the paste then starts at offset 0); the pasted region always stays
inside the canvas; and the boxes returned are the card's boxes translated by
the actual adjusted offset used for pasting. -/
theorem claim_C4_overlay_clip (bgDim cardDim : ℕ) (off : ℤ) (h0 : 0 ≤ off) :
    (overlayAdjust bgDim cardDim off =
      if (bgDim : ℤ) < off + (cardDim : ℤ) then max 0 ((bgDim : ℤ) - (cardDim : ℤ))
      else off) ∧
    overlayAdjust bgDim cardDim off ≤ off ∧
    (cardDim ≤ bgDim →
      sliceLen bgDim (overlayAdjust bgDim cardDim off) cardDim = (cardDim : ℤ)) ∧
    (bgDim < cardDim → overlayAdjust bgDim cardDim off = 0 ∧
      sliceLen bgDim (overlayAdjust bgDim cardDim off) cardDim = (bgDim : ℤ)) ∧
    (overlayAdjust bgDim cardDim off +
      sliceLen bgDim (overlayAdjust bgDim cardDim off) cardDim ≤ (bgDim : ℤ)) ∧
    (∀ (bgH cardH : ℕ) (boxes : List LBox) (yOff : ℤ),
      overlay_card_boxes bgDim bgH cardDim cardH boxes off yOff =
        boxes.map fun b =>
          (⟨b.xmin + (overlayAdjust bgDim cardDim off : ℚ),
            b.ymin + (overlayAdjust bgH cardH yOff : ℚ),
            b.xmax + (overlayAdjust bgDim cardDim off : ℚ),
            b.ymax + (overlayAdjust bgH cardH yOff : ℚ)⟩ : Box)) := by
  have hadj0 : 0 ≤ overlayAdjust bgDim cardDim off :=
    overlayAdjust_nonneg bgDim cardDim off
  have hadjle : overlayAdjust bgDim cardDim off ≤ (bgDim : ℤ) :=
    overlayAdjust_le_bg bgDim cardDim off h0
  refine ⟨?_, ?_, ?_, ?_, ?_, ?_⟩
  · unfold overlayAdjust
    by_cases hov : (bgDim : ℤ) < off + (cardDim : ℤ)
    · rw [if_pos hov, if_pos hov]
    · rw [if_neg hov, if_neg hov]
      exact max_eq_right h0
  · unfold overlayAdjust
    by_cases hov : (bgDim : ℤ) < off + (cardDim : ℤ)
    · rw [if_pos hov]
      exact max_le h0 (by omega)
    · rw [if_neg hov]
      exact le_of_eq (max_eq_right h0)
  · intro hfits
    have hA : overlayAdjust bgDim cardDim off + (cardDim : ℤ) ≤ (bgDim : ℤ) := by
      unfold overlayAdjust
      by_cases hov : (bgDim : ℤ) < off + (cardDim : ℤ)
      · rw [if_pos hov]
        have h1 : max (0:ℤ) ((bgDim : ℤ) - (cardDim : ℤ)) = (bgDim : ℤ) - (cardDim : ℤ) :=
          max_eq_right (by omega)
        rw [h1]
        omega
      · rw [if_neg hov]
        push_neg at hov
        rw [max_eq_right h0]
        omega
    unfold sliceLen
    rw [max_eq_right hadj0, min_eq_left (by omega : overlayAdjust bgDim cardDim off ≤ (bgDim : ℤ)),
      min_eq_left hA]
    rw [show overlayAdjust bgDim cardDim off + (cardDim : ℤ) -
        overlayAdjust bgDim cardDim off = (cardDim : ℤ) from by ring]
    exact max_eq_right (Int.ofNat_nonneg _)
  · intro hbig
    have hov : (bgDim : ℤ) < off + (cardDim : ℤ) := by omega
    have hA0 : overlayAdjust bgDim cardDim off = 0 := by
      unfold overlayAdjust
      rw [if_pos hov]
      exact max_eq_left (by omega)
    refine ⟨hA0, ?_⟩
    unfold sliceLen
    rw [hA0, zero_add]
    have h1 : min ((cardDim : ℤ)) ((bgDim : ℤ)) = (bgDim : ℤ) := min_eq_right (by omega)
    have h2 : max (0:ℤ) (0:ℤ) = 0 := max_self 0
    have h3 : min (0:ℤ) ((bgDim : ℤ)) = 0 := min_eq_left (Int.ofNat_nonneg _)
    rw [h1, h2, h3, sub_zero]
    exact max_eq_right (Int.ofNat_nonneg _)
  · unfold sliceLen
    rw [max_eq_right hadj0, min_eq_left hadjle]
    have hX : min (overlayAdjust bgDim cardDim off + (cardDim : ℤ)) ((bgDim : ℤ)) -
        overlayAdjust bgDim cardDim off ≤ (bgDim : ℤ) - overlayAdjust bgDim cardDim off := by
      have h1 := min_le_right (overlayAdjust bgDim cardDim off + (cardDim : ℤ)) ((bgDim : ℤ))
      omega
    have h5 : max (0:ℤ) (min (overlayAdjust bgDim cardDim off + (cardDim : ℤ)) ((bgDim : ℤ)) -
        overlayAdjust bgDim cardDim off) ≤ (bgDim : ℤ) - overlayAdjust bgDim cardDim off :=
      max_le (by omega) hX
    omega
  · intro bgH cardH boxes yOff
    rfl

/-- Witness for the amended C4: a 50-wide card requested at offset 80 on a
100-wide canvas (the offset is adjusted, the paste extent is the full
card). -/
theorem claim_C4_overlay_clip_witness :
    overlayAdjust 100 50 80 ≤ 80 ∧
    sliceLen 100 (overlayAdjust 100 50 80) 50 = 50 :=
  ⟨(claim_C4_overlay_clip 100 50 80 (by norm_num)).2.1,
    (claim_C4_overlay_clip 100 50 80 (by norm_num)).2.2.1 (by norm_num)⟩

/-- Translation of one local box into canvas coordinates at a candidate
offset (composition.py lines 139-142). -/
def shiftBox (x y : ℤ) (b : LBox) : Box :=
  ⟨b.xmin + (x : ℚ), b.ymin + (y : ℚ), b.xmax + (x : ℚ), b.ymax + (y : ℚ)⟩

/-- The in-flight state of `place_cards_on_background`: the canvas (pixel
content abstracted to an opaque value), the list of placed boxes, the emitted
object records, and the diagnostics printed so far (the placement loop
contains no print statement, so it never appends to `log`). -/
structure PlaceState where
  canvas : ℕ
  placed : List Box
  objects : List PlacedObject
  log : List String
deriving DecidableEq, Repr

/-- The acceptance branch of the placement loop (composition.py lines
153-175): paste the card (the canvas pixel update is abstracted by `blend`),
then validate, record and clip every translated box; `overlay_card` returns
the boxes translated by the adjusted offsets. -/
def acceptCard (blend : ℕ → ℕ) (bgW bgH : ℕ) (t : Card) (x y : ℤ)
    (st : PlaceState) : PlaceState :=
  let xa := overlayAdjust bgW t.width x
  let ya := overlayAdjust bgH t.height y
  let step := t.boxes.foldl
    (fun (acc : List Box × List PlacedObject) b =>
      let xb : Box := shiftBox xa ya b
      match emitObject (bgW : ℚ) (bgH : ℚ) b.label xb with
      | some obj => (acc.1 ++ [xb], acc.2 ++ [obj])
      | none => acc)
    (st.placed, st.objects)
  { canvas := blend st.canvas, placed := step.1, objects := step.2,
    log := st.log }

/-- One card's attempt loop (composition.py lines 134-176): try each sampled
offset in turn; an offset rejected by the coverage checks moves on to the next
attempt; the first accepted offset pastes the card and stops; exhausting all
attempts ends the loop. -/
def tryPlaceCard (blend : ℕ → ℕ) (bgW bgH : ℕ) (t : Card) :
    List (ℤ × ℤ) → PlaceState → PlaceState
  | [], st => st
  | (x, y) :: rest, st =>
    let newBoxes := t.boxes.map (shiftBox x y)
    let fullBox : Box :=
      ⟨(x : ℚ), (y : ℚ), (x : ℚ) + (t.width : ℚ), (y : ℚ) + (t.height : ℚ)⟩
    if check_image_coverage fullBox (2/5) st.placed then
      tryPlaceCard blend bgW bgH t rest st
    else if check_overlap newBoxes (2/5) st.placed then
      tryPlaceCard blend bgW bgH t rest st
    else
      acceptCard blend bgW bgH t x y st

/-- The per-image card loop (composition.py lines 115-176): each (already
transformed) card is attempted in turn, and the loop always continues with
the next card. -/
def placeCards (blend : ℕ → ℕ) (bgW bgH : ℕ) :
    List (Card × List (ℤ × ℤ)) → PlaceState → PlaceState
  | [], st => st
  | (t, attempts) :: rest, st =>
    placeCards blend bgW bgH rest (tryPlaceCard blend bgW bgH t attempts st)

lemma tryPlaceCard_rejected_all (blend : ℕ → ℕ) (bgW bgH : ℕ) (t : Card)
    (attempts : List (ℤ × ℤ)) (st : PlaceState)
    (hall : ∀ a ∈ attempts,
      check_image_coverage
        ⟨(a.1 : ℚ), (a.2 : ℚ), (a.1 : ℚ) + (t.width : ℚ), (a.2 : ℚ) + (t.height : ℚ)⟩
        (2/5) st.placed = true ∨
      check_overlap (t.boxes.map (shiftBox a.1 a.2)) (2/5) st.placed = true) :
    tryPlaceCard blend bgW bgH t attempts st = st := by
  induction attempts with
  | nil => rfl
  | cons a rest ih =>
      obtain ⟨x, y⟩ := a
      simp only [tryPlaceCard]
      by_cases h1 : check_image_coverage
          ⟨(x : ℚ), (y : ℚ), (x : ℚ) + (t.width : ℚ), (y : ℚ) + (t.height : ℚ)⟩
          (2/5) st.placed = true
      · rw [if_pos h1]
        exact ih (fun b hb => hall b (List.mem_cons_of_mem _ hb))
      · rw [if_neg h1]
        rcases hall (x, y) (List.mem_cons_self _ _) with h | h
        · exact absurd h h1
        · rw [if_pos h]
          exact ih (fun b hb => hall b (List.mem_cons_of_mem _ hb))

/-- C7 counterexample: a card whose 15 sampled offsets are all rejected is
skipped with the state - including the diagnostics log - completely
unchanged: contrary to the claim, no diagnostic is emitted on placement
exhaustion (the loop contains no diagnostic output). -/
theorem claim_C7_cex :
    check_image_coverage ⟨0, 0, 100, 100⟩ (2/5) [⟨0, 0, 100, 100⟩] = true ∧
    tryPlaceCard (fun c => c + 1) 100 100
        ⟨0, 100, 100, "card", [⟨"card", 0, 0, 100, 100, 100, 100⟩]⟩
        (List.replicate 15 (0, 0))
        ⟨5, [⟨0, 0, 100, 100⟩], [], []⟩ =
      ⟨5, [⟨0, 0, 100, 100⟩], [], []⟩ ∧
    (⟨5, [⟨0, 0, 100, 100⟩], [], []⟩ : PlaceState).log = [] := by
  refine ⟨?_, ?_, rfl⟩
  · norm_num [check_image_coverage, Box.area]
  · refine tryPlaceCard_rejected_all _ _ _ _ _ _ ?_
    intro a ha
    rcases List.eq_of_mem_replicate ha with rfl
    left
    norm_num [check_image_coverage, Box.area]

/-- C7 amended: if all of a card's placement attempts are rejected, that card
is skipped without raising an error and without emitting any diagnostic: no
pixels are blended and no box or object is appended for that card (canvas,
placed-box list, objects and diagnostics log are all unchanged by it), and
the per-card loop continues with the next card. -/
theorem claim_C7_exhaustion_skip (blend : ℕ → ℕ) (bgW bgH : ℕ) (t : Card)
    (attempts : List (ℤ × ℤ)) (rest : List (Card × List (ℤ × ℤ)))
    (st : PlaceState)
    (hall : ∀ a ∈ attempts,
      check_image_coverage
        ⟨(a.1 : ℚ), (a.2 : ℚ), (a.1 : ℚ) + (t.width : ℚ), (a.2 : ℚ) + (t.height : ℚ)⟩
        (2/5) st.placed = true ∨
      check_overlap (t.boxes.map (shiftBox a.1 a.2)) (2/5) st.placed = true) :
    tryPlaceCard blend bgW bgH t attempts st = st ∧
    placeCards blend bgW bgH ((t, attempts) :: rest) st =
      placeCards blend bgW bgH rest st := by
  have h := tryPlaceCard_rejected_all blend bgW bgH t attempts st hall
  refine ⟨h, ?_⟩
  rw [placeCards, h]

/-- Witness for the amended C7: a single rejected attempt on a 50 by 50 card
fully covering the one placed box. -/
theorem claim_C7_exhaustion_skip_witness :
    tryPlaceCard (fun c => c + 7) 200 200
        ⟨1, 50, 50, "card", [⟨"card", 0, 0, 50, 50, 50, 50⟩]⟩ [(0, 0)]
        ⟨9, [⟨0, 0, 50, 50⟩], [], []⟩ =
      ⟨9, [⟨0, 0, 50, 50⟩], [], []⟩ ∧
    placeCards (fun c => c + 7) 200 200
        [(⟨1, 50, 50, "card", [⟨"card", 0, 0, 50, 50, 50, 50⟩]⟩, [(0, 0)])]
        ⟨9, [⟨0, 0, 50, 50⟩], [], []⟩ =
      placeCards (fun c => c + 7) 200 200 []
        ⟨9, [⟨0, 0, 50, 50⟩], [], []⟩ :=
  claim_C7_exhaustion_skip (fun c => c + 7) 200 200
    ⟨1, 50, 50, "card", [⟨"card", 0, 0, 50, 50, 50, 50⟩]⟩ [(0, 0)] []
    ⟨9, [⟨0, 0, 50, 50⟩], [], []⟩
    (by
      intro a ha
      rcases List.mem_singleton.mp ha with rfl
      left
      norm_num [check_image_coverage, Box.area])

/-- Python list indexing `l[i]`: a negative index counts from the end of the
list; an index still out of range raises `IndexError` (modelled as `none`). -/
def pyIndex {α : Type} (l : List α) (i : ℤ) : Option α :=
  let j := if i < 0 then (l.length : ℤ) + i else i
  if 0 ≤ j ∧ j < (l.length : ℤ) then l.get? j.toNat else none

/-- One annotation line of `load_card_images` after numeric parsing
(loaders.py line 78): `class_id x_center y_center width height`. -/
structure RawLine where
  classId : ℤ
  xc : ℚ
  yc : ℚ
  w : ℚ
  h : ℚ
deriving DecidableEq, Repr

/-- The per-line handling of `load_card_images` (loaders.py lines 77-111): a
line whose `class_id` fails the check `class_id < len(classes)` appends no
box; a passing `class_id` indexes `classes` (an `IndexError` from an index
below `-len(classes)` is caught and the line is dropped); otherwise the box
is built from the denormalized, truncated pixel coordinates. -/
def processAnnotationLine (classes : List String) (imgW imgH : ℕ)
    (ln : RawLine) : Option LBox :=
  if ln.classId < (classes.length : ℤ) then
    match pyIndex classes ln.classId with
    | none => none
    | some className =>
      let xcp := ln.xc * (imgW : ℚ)
      let ycp := ln.yc * (imgH : ℚ)
      let wp := ln.w * (imgW : ℚ)
      let hp := ln.h * (imgH : ℚ)
      let bxmin := pyInt (xcp - wp / 2)
      let bymin := pyInt (ycp - hp / 2)
      let bxmax := pyInt (xcp + wp / 2)
      let bymax := pyInt (ycp + hp / 2)
      some { label := className, xmin := (bxmin : ℚ), ymin := (bymin : ℚ),
             xmax := (bxmax : ℚ), ymax := (bymax : ℚ),
             width := ((bxmax - bxmin : ℤ) : ℚ),
             height := ((bymax - bymin : ℤ) : ℚ) }
  else none

/-- C10: when the sprite loader parses an annotation line, a `class_id`
greater than or equal to `len(classes)` causes the line to be dropped, but a
negative `class_id` `n` with `-len(classes) ≤ n ≤ -1` passes the validity
check `class_id < len(classes)` and produces a box labeled
`classes[len(classes) + n]` via negative indexing, instead of being rejected
as invalid. -/
theorem claim_C10_negative_class_id (classes : List String) (imgW imgH : ℕ)
    (ln : RawLine) :
    ((classes.length : ℤ) ≤ ln.classId →
      processAnnotationLine classes imgW imgH ln = none) ∧
    (-(classes.length : ℤ) ≤ ln.classId → ln.classId ≤ -1 →
      ∃ b, processAnnotationLine classes imgW imgH ln = some b ∧
        b.label = classes.getD ((classes.length : ℤ) + ln.classId).toNat "") := by
  constructor
  · intro h
    unfold processAnnotationLine
    rw [if_neg (not_lt.mpr h)]
  · intro h1 h2
    have hlt : ln.classId < (classes.length : ℤ) := by omega
    have hneg : ln.classId < 0 := by omega
    have hnat : ((classes.length : ℤ) + ln.classId).toNat < classes.length := by
      omega
    have hsome : classes.get? ((classes.length : ℤ) + ln.classId).toNat =
        some (classes.getD ((classes.length : ℤ) + ln.classId).toNat "") := by
      rw [List.getD_eq_get? ]
      rcases hg : classes.get? ((classes.length : ℤ) + ln.classId).toNat with _ | v
      · rw [List.get?_eq_none] at hg
        omega
      · rfl
    have hpy : pyIndex classes ln.classId =
        some (classes.getD ((classes.length : ℤ) + ln.classId).toNat "") := by
      simp only [pyIndex, if_pos hneg]
      rw [if_pos ⟨by omega, by omega⟩]
      exact hsome
    simp only [processAnnotationLine, if_pos hlt, hpy]
    exact ⟨_, rfl, rfl⟩

/-- Witness for C10 with classes `["a", "b", "c"]`: class id 5 drops the
line, class id -1 yields a box (labeled with the last class). -/
theorem claim_C10_negative_class_id_witness :
    processAnnotationLine ["a", "b", "c"] 100 100 ⟨5, 0, 0, 0, 0⟩ = none ∧
    (processAnnotationLine ["a", "b", "c"] 100 100
      ⟨-1, 1/2, 1/2, 1/2, 1/2⟩).isSome = true := by
  constructor
  · exact (claim_C10_negative_class_id ["a", "b", "c"] 100 100
      ⟨5, 0, 0, 0, 0⟩).1 (by decide)
  · obtain ⟨b, hb, _⟩ := (claim_C10_negative_class_id ["a", "b", "c"] 100 100
      ⟨-1, 1/2, 1/2, 1/2, 1/2⟩).2 (by decide) (by decide)
    rw [hb]
    rfl

/-- A card dictionary in the Python heap: the `image` entry and every entry
of `bounding_boxes` are references to other heap cells. -/
structure CardDict where
  imgRef : ℕ
  width : ℕ
  height : ℕ
  label : String
  boxRefs : List ℕ
deriving DecidableEq, Repr

/-- The Python heap relevant to `apply_transformations`: pixel buffers
(contents abstracted to opaque values), bounding-box dictionaries and card
dictionaries, addressed by allocation index; allocation appends. -/
structure PyHeap where
  imgs : List ℕ
  boxes : List LBox
  cards : List CardDict
deriving DecidableEq, Repr

/-- `apply_transformations` (transformations.py lines 72-246) as a heap
transformer, mirroring where the source reads and writes: every operation
either reads through the input card's references or writes to a fresh
allocation (`card['image'].copy()` at line 83, `bbox.copy()` at lines
183/226 for every transformed box, `card.copy()` at line 239 for the result);
no store to a pre-existing reference occurs anywhere in the function. `fpix`
abstracts the pixel pipeline (split, resize, rotate, jitter, merge) on the
opaque buffer contents. -/
def apply_transformations_heap (fpix : ℕ → ℕ) (st : PyHeap) (cardRef : ℕ)
    (sf : ℚ) (p : TParams) : PyHeap × ℕ :=
  match st.cards.get? cardRef with
  | none => (st, cardRef)
  | some card =>
    let newImgContent := fpix (st.imgs.getD card.imgRef 0)
    let newImgRef := st.imgs.length
    let st1 : PyHeap := { st with imgs := st.imgs ++ [newImgContent] }
    let newW := (pyInt ((card.width : ℚ) * sf)).toNat
    let newH := (pyInt ((card.height : ℚ) * sf)).toNat
    let rot := rotateExpandDims newW newH p.c p.s
    let dx := ((rot.1 : ℚ) - (newW : ℚ)) / 2
    let dy := ((rot.2 : ℚ) - (newH : ℚ)) / 2
    let Cx := ((card.width : ℚ) / 2) * sf
    let Cy := ((card.height : ℚ) / 2) * sf
    let oldBoxes := card.boxRefs.map
      (fun r => st1.boxes.getD r ⟨"", 0, 0, 0, 0, 0, 0⟩)
    let tb1 := oldBoxes.map (transformBBox sf p.c p.s Cx Cy dx dy)
    let tb2 := match p.persp with
      | none => tb1
      | some M => tb1.map (perspBBox M)
    let newBoxRefs := (List.range tb2.length).map (fun i => st1.boxes.length + i)
    let st2 : PyHeap := { st1 with boxes := st1.boxes ++ tb2 }
    let newCard : CardDict := ⟨newImgRef, rot.1, rot.2, card.label, newBoxRefs⟩
    let newCardRef := st2.cards.length
    ({ st2 with cards := st2.cards ++ [newCard] }, newCardRef)

/-- C8: the Geometric Transform Stage never mutates its input: after the
call, every pre-existing heap cell - in particular the input sprite's pixel
buffer, its box dictionaries and its card dictionary (width, height,
bounding-box list) - holds the same value as before, and the returned sprite
is a fresh allocation, so the same sprite can be transformed and placed
multiple times with independent transforms. -/
theorem claim_C8_no_mutation (fpix : ℕ → ℕ) (st : PyHeap) (cardRef : ℕ)
    (sf : ℚ) (p : TParams) :
    (∀ i, i < st.imgs.length →
      (apply_transformations_heap fpix st cardRef sf p).1.imgs.get? i =
        st.imgs.get? i) ∧
    (∀ i, i < st.boxes.length →
      (apply_transformations_heap fpix st cardRef sf p).1.boxes.get? i =
        st.boxes.get? i) ∧
    (∀ i, i < st.cards.length →
      (apply_transformations_heap fpix st cardRef sf p).1.cards.get? i =
        st.cards.get? i) ∧
    st.cards.length ≤ (apply_transformations_heap fpix st cardRef sf p).2 := by
  unfold apply_transformations_heap
  cases hc : st.cards.get? cardRef with
  | none =>
      refine ⟨fun i _ => rfl, fun i _ => rfl, fun i _ => rfl, ?_⟩
      exact List.get?_eq_none.mp hc
  | some card =>
      refine ⟨fun i hi => ?_, fun i hi => ?_, fun i hi => ?_, ?_⟩
      · exact List.get?_append hi
      · exact List.get?_append hi
      · exact List.get?_append hi
      · exact le_refl _

/-- Witness for C8 on a one-card heap. -/
theorem claim_C8_no_mutation_witness :
    (apply_transformations_heap (fun c => c + 1)
        ⟨[11], [⟨"card", 0, 0, 4, 4, 4, 4⟩], [⟨0, 4, 4, "card", [0]⟩]⟩ 0 1
        ⟨1, 0, 1, 1, 1, none⟩).1.imgs.get? 0 = some 11 ∧
    (apply_transformations_heap (fun c => c + 1)
        ⟨[11], [⟨"card", 0, 0, 4, 4, 4, 4⟩], [⟨0, 4, 4, "card", [0]⟩]⟩ 0 1
        ⟨1, 0, 1, 1, 1, none⟩).1.boxes.get? 0 = some ⟨"card", 0, 0, 4, 4, 4, 4⟩ ∧
    (apply_transformations_heap (fun c => c + 1)
        ⟨[11], [⟨"card", 0, 0, 4, 4, 4, 4⟩], [⟨0, 4, 4, "card", [0]⟩]⟩ 0 1
        ⟨1, 0, 1, 1, 1, none⟩).1.cards.get? 0 = some ⟨0, 4, 4, "card", [0]⟩ ∧
    1 ≤ (apply_transformations_heap (fun c => c + 1)
        ⟨[11], [⟨"card", 0, 0, 4, 4, 4, 4⟩], [⟨0, 4, 4, "card", [0]⟩]⟩ 0 1
        ⟨1, 0, 1, 1, 1, none⟩).2 :=
  ⟨by
      rw [(claim_C8_no_mutation (fun c => c + 1)
        ⟨[11], [⟨"card", 0, 0, 4, 4, 4, 4⟩], [⟨0, 4, 4, "card", [0]⟩]⟩ 0 1
        ⟨1, 0, 1, 1, 1, none⟩).1 0 (by norm_num)]
      rfl,
    by
      rw [(claim_C8_no_mutation (fun c => c + 1)
        ⟨[11], [⟨"card", 0, 0, 4, 4, 4, 4⟩], [⟨0, 4, 4, "card", [0]⟩]⟩ 0 1
        ⟨1, 0, 1, 1, 1, none⟩).2.1 0 (by norm_num)]
      rfl,
    by
      rw [(claim_C8_no_mutation (fun c => c + 1)
        ⟨[11], [⟨"card", 0, 0, 4, 4, 4, 4⟩], [⟨0, 4, 4, "card", [0]⟩]⟩ 0 1
        ⟨1, 0, 1, 1, 1, none⟩).2.2.1 0 (by norm_num)]
      rfl,
    (claim_C8_no_mutation (fun c => c + 1)
      ⟨[11], [⟨"card", 0, 0, 4, 4, 4, 4⟩], [⟨0, 4, 4, "card", [0]⟩]⟩ 0 1
      ⟨1, 0, 1, 1, 1, none⟩).2.2.2⟩

end SyntheticData
